import Mathlib

/-!
Verification of the document ingestion and retrieval pipeline of an
API-based RAG chatbot (`main.py`).  Text is modelled as `List Char`,
file contents and parse results as explicit fields of a `SrcFile`
record, and the similarity vector produced by `cosine_similarity` as a
list of rationals.  Each definition is a direct translation of the
corresponding Python function.
-/

namespace RagBot

/-- Python regex class `\s` restricted to the ASCII whitespace characters
(the inputs the pipeline manipulates). Used by `re.sub(r'\s+', ' ', text)`
and by `str.strip`. -/
def isPySpace (c : Char) : Bool :=
  c = ' ' || c = '\t' || c = '\n' || c = '\r' || c = '\x0b' || c = '\x0c'

/-- Helper for `re.sub(r'\s+', ' ', text)`: the Bool argument records
whether the previous character was whitespace, so each maximal whitespace
run is replaced by a single space. -/
def collapseAux : Bool → List Char → List Char
  | _, [] => []
  | prevSpace, c :: rest =>
    if isPySpace c then
      if prevSpace then collapseAux true rest
      else ' ' :: collapseAux true rest
    else c :: collapseAux false rest

/-- The substitution `re.sub(r'\s+', ' ', text)` from `_chunk_text`. -/
def collapseWs (l : List Char) : List Char := collapseAux false l

/-- Python `str.strip()`: remove leading and trailing whitespace. -/
def pyStrip (l : List Char) : List Char :=
  ((l.dropWhile isPySpace).reverse.dropWhile isPySpace).reverse

/-- The sentence delimiters of the regex `[.!?]+` in `_chunk_text`. -/
def isDelim (c : Char) : Bool := c = '.' || c = '!' || c = '?'

/-- Helper for `re.split(r'[.!?]+', text)`: `acc` is the piece being read
(reversed), the Bool records whether the previous character was a
delimiter (so a maximal delimiter run yields one single split point). -/
def splitAux (acc : List Char) (prevDelim : Bool) : List Char → List (List Char)
  | [] => [acc.reverse]
  | c :: rest =>
    if isDelim c then
      if prevDelim then splitAux acc true rest
      else acc.reverse :: splitAux [] true rest
    else splitAux (c :: acc) false rest

/-- The split `re.split(r'[.!?]+', text)` from `_chunk_text`. -/
def splitSentences (l : List Char) : List (List Char) := splitAux [] false l

/-- The sentence-accumulation loop of `_chunk_text`: iterate over the
sentences carrying `current` (the chunk under construction); a sentence
is stripped and skipped if empty; if it fits (`len(current)+len(s) <
chunk_size`) it is appended as `s + ". "`, otherwise the current chunk is
closed (stripped and emitted, when non-empty) and a new one is seeded
with the sentence. At the end the pending chunk is emitted. -/
def chunkLoop (cs : Nat) : List (List Char) → List Char → List (List Char)
  | [], current => if current.isEmpty then [] else [pyStrip current]
  | sent :: rest, current =>
    if (pyStrip sent).isEmpty then chunkLoop cs rest current
    else if current.length + (pyStrip sent).length < cs then
      chunkLoop cs rest (current ++ pyStrip sent ++ ['.', ' '])
    else
      (if current.isEmpty then [] else [pyStrip current]) ++
        chunkLoop cs rest (pyStrip sent ++ ['.', ' '])

/-- The chunk list accumulated by `_chunk_text` before its final noise
filter: normalize whitespace, strip, split into sentences, run the
accumulation loop starting from the empty current chunk. -/
def chunksRaw (text : List Char) (cs : Nat) : List (List Char) :=
  chunkLoop cs (splitSentences (pyStrip (collapseWs text))) []

/-- `_chunk_text(text, chunk_size)`: the accumulated chunks with the
final comprehension `[chunk for chunk in chunks if len(chunk) > 20]`. -/
def chunk_text (text : List Char) (cs : Nat) : List (List Char) :=
  (chunksRaw text cs).filter (fun c => decide (20 < c.length))

/-- Characters of a path after the last separator, as in
`os.path.basename` (POSIX separator). -/
def basenameOf (p : List Char) : List Char :=
  (p.reverse.takeWhile (fun c => c ≠ '/')).reverse

/-- The extension part of `os.path.splitext(path)[1]`: within the
basename, leading dots are not extension separators; the extension runs
from the last remaining dot (inclusive) to the end, or is empty when no
such dot exists. -/
def extOf (p : List Char) : List Char :=
  let core := (basenameOf p).dropWhile (fun c => c = '.')
  let tail := core.reverse.takeWhile (fun c => c ≠ '.')
  if tail.length = core.length then [] else '.' :: tail.reverse

/-- `os.path.splitext(file_path)[1].lower()` as computed at the top of
`_extract_text`. -/
def extLower (p : List Char) : List Char := (extOf p).map Char.toLower

/-- A source file as the pipeline observes it: its path, its byte size
(`os.path.getsize`), and the outcomes of the three ways `_extract_text`
can read it.  `none` models the read or the parsing library raising, in
which case the surrounding `try` of `_extract_text` returns the empty
string.  `textRead` is the UTF-8 errors-ignore decode of the bytes,
`pdfPages` the per-page texts PyPDF2 yields, `docxParas` the paragraph
texts python-docx yields. -/
structure SrcFile where
  path : List Char
  size : Nat
  textRead : Option (List Char)
  pdfPages : Option (List (List Char))
  docxParas : Option (List (List Char))
deriving DecidableEq

/-- `_extract_text(file_path)`: dispatch on the lowered extension; `.txt`
reads the file as text; `.pdf` concatenates the text of the first 20
pages; `.docx` and `.doc` concatenate the paragraphs, each followed by a
newline; any other extension is attempted as plain text.  Any failure
inside the `try` yields the empty string. -/
def extract_text (f : SrcFile) : List Char :=
  let ext := extLower f.path
  if ext = ".txt".toList then (f.textRead).getD []
  else if ext = ".pdf".toList then
    match f.pdfPages with
    | some pages => (pages.take 20).foldl (fun acc p => acc ++ p) []
    | none => []
  else if ext = ".docx".toList || ext = ".doc".toList then
    match f.docxParas with
    | some ps => ps.foldl (fun acc p => acc ++ p ++ ['\n']) []
    | none => []
  else (f.textRead).getD []

/-- One stored chunk record, as appended by
`_load_and_process_documents`: the chunk content, the basename of the
originating file, and the index of the chunk within that file. -/
structure ChunkDoc where
  content : List Char
  source : List Char
  chunk_id : Nat
deriving DecidableEq

/-- The per-file body of `_load_and_process_documents`: when the
extracted text is non-empty, chunk it with `chunk_size=400` and append
one record per chunk (content, basename of the path, chunk index) to the
accumulator. -/
def loadAppend (f : SrcFile) (acc : List ChunkDoc) : List ChunkDoc :=
  if (extract_text f).isEmpty then acc
  else acc ++ (chunk_text (extract_text f) 400).enum.map
    (fun ic => ⟨ic.2, basenameOf f.path, ic.1⟩)

/-- The loop of `_load_and_process_documents`: skip files larger than
5 MB before extraction (`continue`); otherwise extract and append the
chunk records; after a processed file, stop (`break`) when the
accumulated count exceeds 150. -/
def loadLoop : List SrcFile → List ChunkDoc → List ChunkDoc
  | [], acc => acc
  | f :: rest, acc =>
    if 5 * 1024 * 1024 < f.size then loadLoop rest acc
    else if 150 < (loadAppend f acc).length then loadAppend f acc
    else loadLoop rest (loadAppend f acc)

/-- `_load_and_process_documents(file_paths)`: the chunk records stored
in `self.documents` once the loop finishes. -/
def load_and_process (files : List SrcFile) : List ChunkDoc := loadLoop files []

/-- The fitted sparse index: `self.vectorizer` together with
`self.tfidf_matrix`.  The TF-IDF parameters are fixed constants in
`_create_vector_index`, so the fitted pair is determined by the corpus
it was fitted on, which is what the model records. -/
structure SparseIndex where
  corpus : List (List Char)
deriving DecidableEq

/-- The state of an `APIBasedChatBot`: the stored chunk records and the
index fields, `none` until `_create_vector_index` builds them. -/
structure BotState where
  documents : List ChunkDoc
  index : Option SparseIndex
deriving DecidableEq

/-- The error vocabulary the specification assigns to index building. -/
inductive BuildError where
  | EmptyInputError
deriving DecidableEq

/-- `_create_vector_index()`: on an empty document list the method
returns at once (`if not self.documents: return`), leaving the index
fields untouched; otherwise it fits the vectorizer over the chunk
contents and stores the fitted index.  The `Except` result records
whether an error is raised: the method never raises on the empty case,
so both branches are `ok`. -/
def create_vector_index (st : BotState) : Except BuildError BotState :=
  if st.documents.isEmpty then .ok st
  else .ok ⟨st.documents, some ⟨st.documents.map (fun d => d.content)⟩⟩

/-- Work counter for `_create_vector_index`: fitting the vectorizer
(`fit_transform`) is performed exactly when the document list is
non-empty. -/
def create_vector_index_work (st : BotState) : Nat :=
  if st.documents.isEmpty then 0 else 1

/-- `APIBasedChatBot.__init__(file_paths)`: an empty (falsy) file list
skips ingestion entirely; otherwise the documents are loaded and the
index is built.  No fingerprint is computed and no cache is consulted. -/
def mkBot (files : List SrcFile) : Except BuildError BotState :=
  if files.isEmpty then .ok ⟨[], none⟩
  else create_vector_index ⟨load_and_process files, none⟩

/-- The vectorizer-fitting work performed by one construction of the
bot from the given files. -/
def mkBotWork (files : List SrcFile) : Nat :=
  if files.isEmpty then 0 else create_vector_index_work ⟨load_and_process files, none⟩

/-- Total vectorizer-fitting work performed by two consecutive uploads
of the same files: the constructor is called twice and shares no state
between the calls. -/
def twoUploadsWork (files : List SrcFile) : Nat :=
  mkBotWork files + mkBotWork files

/-- Python slice `xs[-k:]` for a natural `k`: for `k = 0` the slice
`[-0:]` is `[0:]`, the whole list; otherwise the last `k` elements. -/
def pySliceLast (l : List Nat) (k : Nat) : List Nat :=
  if k = 0 then l else l.drop (l.length - k)

/-- `np.argsort(similarities)`: the indices `0..n-1` ordered so that the
similarity values read off along them are ascending (ties in an
unspecified order; modelled with insertion sort). -/
def argsortSims (sims : List ℚ) : List Nat :=
  List.insertionSort (fun i j => sims.getD i 0 ≤ sims.getD j 0)
    (List.range sims.length)

/-- The relevance threshold of `_get_relevant_context`
(`similarities[idx] > 0.1`). -/
def relevanceThreshold : ℚ := mkRat 1 10

/-- The index selection of `_get_relevant_context`: take the last
`top_k` entries of the argsort, reverse them, and keep those whose
similarity strictly exceeds the threshold, in that order. -/
def retrieveIndices (sims : List ℚ) (k : Nat) : List Nat :=
  ((pySliceLast (argsortSims sims) k).reverse).filter
    (fun i => decide (relevanceThreshold < sims.getD i 0))

/-- `_get_relevant_context(question, top_k)` on a built index: the chunk
contents selected by `retrieveIndices` in order (the method then joins
them with a blank line; the empty list corresponds to the empty joined
string).  `sims` is the cosine-similarity row `cosine_similarity
(question_vector, tfidf_matrix)[0]`, one value per stored chunk. -/
def get_relevant_context (docs : List (List Char)) (sims : List ℚ) (k : Nat) :
    List (List Char) :=
  (retrieveIndices sims k).map (fun i => docs.getD i [])

/-- The guard of `_get_relevant_context`: with no documents or no built
matrix the method returns the empty string before any vectorization. -/
def get_relevant_context_state (st : BotState) (sims : List ℚ) (k : Nat) :
    List (List Char) :=
  if st.documents.isEmpty || st.index.isNone then []
  else get_relevant_context (st.documents.map (fun d => d.content)) sims k

/-- Characters of a text that are not whitespace (used to state the
coverage property). -/
def nonWsLen (l : List Char) : Nat := (l.filter (fun c => !isPySpace c)).length

/-- Concatenation of a chunk list (used to state the coverage
property). -/
def joinChunks (ls : List (List Char)) : List Char := ls.foldr (fun a b => a ++ b) []

/-- The length of the longest sentence (after stripping) that
`_chunk_text` extracts from a text; the chunk-length bound is stated in
terms of it. -/
def maxSentLen (text : List Char) : Nat :=
  ((splitSentences (pyStrip (collapseWs text))).map
    (fun s => (pyStrip s).length)).foldr max 0

/-- Invariant carried by the pending chunk of the accumulation loop:
it is empty, or it is bounded in length and ends in the space of the
last appended `". "`. -/
def curInv (cs M : Nat) (cur : List Char) : Prop :=
  cur = [] ∨ (cur.length ≤ max (cs + 1) (M + 2) ∧ ∃ w, cur = w ++ [' '])

/-- A concrete two-sentence text used to instantiate the chunker
theorems. -/
def demoText : List Char :=
  "aaaaaaaaaaaaaaaaaaaaaaaaa. bbbbbbbbbbbbbbbbbbbbbbbbb.".toList

/-- The single chunk the chunker produces from `demoText` at chunk size
400. -/
def demoChunk : List Char :=
  List.replicate 25 'a' ++ '.' :: ' ' :: List.replicate 25 'b' ++ ['.']

/-- A concrete small text file whose extracted text yields exactly one
chunk. -/
def smallTxtFile : SrcFile :=
  ⟨"docs/note.txt".toList, 29, some "this is a sentence with stuff".toList, none, none⟩

/-- A concrete text file over the 5 MB ceiling. -/
def oversizeFile : SrcFile :=
  ⟨"docs/big.txt".toList, 6 * 1024 * 1024,
    some "content of the oversized file that is never read".toList, none, none⟩

end RagBot


namespace RagBot

/-- A member of a fold by `max` is bounded by the fold. -/
theorem mem_le_foldr_max (l : List Nat) : ∀ x ∈ l, x ≤ l.foldr max 0 := by
  induction l with
  | nil => simp
  | cons a l ih =>
    intro x hx
    rcases List.mem_cons.mp hx with rfl | hx'
    · exact le_max_left _ _
    · exact le_trans (ih x hx') (le_max_right _ _)

/-- The accumulation loop never returns the empty list when it starts
from a non-empty pending chunk. -/
theorem chunkLoop_ne_nil_left (cs : Nat) (sents : List (List Char)) :
    ∀ cur : List Char, cur ≠ [] → chunkLoop cs sents cur ≠ [] := by
  induction sents with
  | nil =>
    intro cur h
    simp [chunkLoop, h]
  | cons sent rest ih =>
    intro cur h
    by_cases hs : (pyStrip sent).isEmpty
    · simpa [chunkLoop, hs] using ih cur h
    · by_cases hlt : cur.length + (pyStrip sent).length < cs
      · simpa [chunkLoop, hs, hlt] using ih _ (by simp)
      · have h2 : chunkLoop cs rest (pyStrip sent ++ ['.', ' ']) ≠ [] := ih _ (by simp)
        simp [chunkLoop, hs, hlt, h2]

/-- The accumulation loop never returns the empty list when some
remaining sentence is non-empty after stripping. -/
theorem chunkLoop_ne_nil_of_sent (cs : Nat) (sents : List (List Char)) :
    ∀ cur : List Char, (∃ s ∈ sents, pyStrip s ≠ []) → chunkLoop cs sents cur ≠ [] := by
  induction sents with
  | nil =>
    rintro cur ⟨s, hs, _⟩
    cases hs
  | cons sent rest ih =>
    rintro cur ⟨s, hmem, hsne⟩
    by_cases hs : (pyStrip sent).isEmpty
    · rcases List.mem_cons.mp hmem with rfl | hmem'
      · exact absurd (List.isEmpty_iff.mp hs) hsne
      · simpa [chunkLoop, hs] using ih cur ⟨s, hmem', hsne⟩
    · by_cases hlt : cur.length + (pyStrip sent).length < cs
      · simpa [chunkLoop, hs, hlt] using chunkLoop_ne_nil_left cs rest _ (by simp)
      · have h2 : chunkLoop cs rest (pyStrip sent ++ ['.', ' ']) ≠ [] :=
          chunkLoop_ne_nil_left cs rest _ (by simp)
        simp [chunkLoop, hs, hlt, h2]

/-- Stripping a text that ends in a space yields a text strictly shorter
than the original, bounded by the part before the space. -/
theorem pyStrip_append_space_length (w : List Char) :
    (pyStrip (w ++ [' '])).length ≤ w.length := by
  unfold pyStrip
  rw [List.dropWhile_append]
  by_cases h : (w.dropWhile isPySpace).isEmpty
  · simp [h, isPySpace]
  · simp only [h, if_false, Bool.false_eq_true]
    rw [List.reverse_append]
    have hsp : isPySpace ' ' = true := by decide
    simp only [List.reverse_cons, List.reverse_nil, List.nil_append,
      List.singleton_append, List.dropWhile_cons_of_pos hsp]
    calc ((((w.dropWhile isPySpace).reverse).dropWhile isPySpace).reverse).length
        = (((w.dropWhile isPySpace).reverse).dropWhile isPySpace).length := by
          simp
      _ ≤ ((w.dropWhile isPySpace).reverse).length := (List.dropWhile_sublist _).length_le
      _ = (w.dropWhile isPySpace).length := by simp
      _ ≤ w.length := (List.dropWhile_sublist _).length_le

/-- A chunk emitted from a pending chunk satisfying the invariant is
bounded by `max cs (M + 1)`. -/
theorem emit_length_le {cs M : Nat} {cur : List Char} (h : curInv cs M cur)
    (hne : cur ≠ []) : (pyStrip cur).length ≤ max cs (M + 1) := by
  rcases h with rfl | ⟨hlen, w, rfl⟩
  · exact absurd rfl hne
  · have h1 := pyStrip_append_space_length w
    have h2 : w.length + 1 ≤ max (cs + 1) (M + 2) := by
      simpa using hlen
    have h3 : max (cs + 1) (M + 2) = max cs (M + 1) + 1 := Nat.succ_max_succ cs (M + 1)
    omega

/-- Every chunk produced by the accumulation loop is bounded by the
chunk size or by the longest stripped sentence plus its appended
period, whichever is larger. -/
theorem chunkLoop_length_bound (cs M : Nat) :
    ∀ sents : List (List Char), (∀ s ∈ sents, (pyStrip s).length ≤ M) →
      ∀ cur, curInv cs M cur →
        ∀ c ∈ chunkLoop cs sents cur, c.length ≤ max cs (M + 1) := by
  intro sents
  induction sents with
  | nil =>
    intro _ cur hinv c hc
    by_cases h : cur.isEmpty
    · simp [chunkLoop, h] at hc
    · simp only [chunkLoop, h, Bool.false_eq_true, if_false, List.mem_singleton] at hc
      subst hc
      exact emit_length_le hinv (by simpa using h)
  | cons sent rest ih =>
    intro hM cur hinv c hc
    have hMrest : ∀ s ∈ rest, (pyStrip s).length ≤ M :=
      fun s hs => hM s (List.mem_cons_of_mem _ hs)
    have hMsent : (pyStrip sent).length ≤ M := hM sent (List.mem_cons_self _ _)
    by_cases hs : (pyStrip sent).isEmpty
    · exact ih hMrest cur hinv c (by simpa [chunkLoop, hs] using hc)
    · by_cases hlt : cur.length + (pyStrip sent).length < cs
      · refine ih hMrest (cur ++ pyStrip sent ++ ['.', ' ']) ?_ c
          (by simpa [chunkLoop, hs, hlt] using hc)
        refine Or.inr ⟨?_, cur ++ pyStrip sent ++ ['.'], by simp⟩
        simp only [List.append_assoc, List.length_append]
        simp
        omega
      · rw [chunkLoop] at hc
        simp only [hs, Bool.false_eq_true, if_false, hlt, List.mem_append] at hc
        rcases hc with hleft | hright
        · by_cases hcur : cur.isEmpty
          · simp [hcur] at hleft
          · simp only [hcur, Bool.false_eq_true, if_false, List.mem_singleton] at hleft
            subst hleft
            exact emit_length_le hinv (by simpa using hcur)
        · refine ih hMrest (pyStrip sent ++ ['.', ' ']) ?_ c hright
          refine Or.inr ⟨?_, pyStrip sent ++ ['.'], by simp⟩
          simp only [List.length_append]
          simp
          omega

/-- C1 is false as stated: for the non-empty input text `Hello world`
(trimmed input non-empty), the chunker output is empty, so the
concatenated output covers 0% of the non-whitespace characters of the
input, below the claimed 99%, and the output chunk sequence is empty. -/
theorem C1_chunker_coverage_counterexample :
    pyStrip (collapseWs "Hello world".toList) ≠ [] ∧
    chunk_text "Hello world".toList 400 = [] ∧
    100 * nonWsLen (joinChunks (chunk_text "Hello world".toList 400)) <
      99 * nonWsLen "Hello world".toList := by decide

/-- C1 (amended): for every input text and chunk size, every fragment
the chunker drops is a sub-minimum-length fragment of at most 20
characters (the output is exactly the accumulated chunks longer than
20); the output is non-empty whenever some accumulated chunk exceeds 20
characters; and the accumulated chunk sequence before the noise filter
is non-empty whenever some sentence of the normalized input is
non-empty after stripping.  The output can be empty for non-empty
inputs whose every accumulated chunk is at most 20 characters long. -/
theorem C1_chunker_coverage_amended (text : List Char) (cs : Nat) :
    (∀ c ∈ chunksRaw text cs, c ∉ chunk_text text cs → c.length ≤ 20) ∧
    ((∃ c ∈ chunksRaw text cs, 20 < c.length) → chunk_text text cs ≠ []) ∧
    ((∃ s ∈ splitSentences (pyStrip (collapseWs text)), pyStrip s ≠ []) →
      chunksRaw text cs ≠ []) := by
  refine ⟨?_, ?_, ?_⟩
  · intro c hc hnot
    by_contra h20
    exact hnot (List.mem_filter.mpr ⟨hc, by simpa using Nat.lt_of_not_le h20⟩)
  · rintro ⟨c, hc, h20⟩
    exact List.ne_nil_of_mem (List.mem_filter.mpr ⟨hc, by simpa using h20⟩)
  · intro hex
    exact chunkLoop_ne_nil_of_sent cs _ [] hex

/-- Witness for the amended C1 at the concrete text `demoText`: a
sentence survives stripping, so both the accumulated sequence and the
final output are non-empty. -/
theorem C1_chunker_coverage_amended_witness :
    chunksRaw demoText 400 ≠ [] ∧ chunk_text demoText 400 ≠ [] :=
  ⟨(C1_chunker_coverage_amended demoText 400).2.2
      ⟨List.replicate 25 'a', by decide, by decide⟩,
   (C1_chunker_coverage_amended demoText 400).2.1
      ⟨demoChunk, by decide, by decide⟩⟩

/-- C2 is false as stated: a single sentence with no internal sentence
boundary becomes one chunk whose length exceeds any fixed slack over
the requested chunk size; at chunk size 10, a 50-character sentence
yields a chunk of 51 characters, more than five times the configured
size. -/
theorem C2_chunk_size_counterexample :
    List.replicate 50 'a' ++ ['.'] ∈ chunk_text (List.replicate 50 'a') 10 ∧
    (List.replicate 50 'a' ++ ['.']).length = 5 * 10 + 1 := by decide

/-- C2 (amended): every chunk is bounded by the larger of the chunk
size and the longest stripped sentence plus one (the appended period);
in particular, whenever every sentence is strictly shorter than the
chunk size, no chunk exceeds the chunk size.  A chunk exceeds
`chunk_size` only by carrying a single over-long sentence, and by as
much as that sentence is long. -/
theorem C2_chunk_length_bound (text : List Char) (cs : Nat) :
    (∀ c ∈ chunk_text text cs, c.length ≤ max cs (maxSentLen text + 1)) ∧
    (maxSentLen text < cs → ∀ c ∈ chunk_text text cs, c.length ≤ cs) := by
  have main : ∀ c ∈ chunk_text text cs, c.length ≤ max cs (maxSentLen text + 1) := by
    intro c hc
    refine chunkLoop_length_bound cs (maxSentLen text) _ ?_ [] (Or.inl rfl) c
      (List.mem_of_mem_filter hc)
    intro s hs
    exact mem_le_foldr_max _ _ (List.mem_map_of_mem _ hs)
  refine ⟨main, ?_⟩
  intro hlt c hc
  have h1 := main c hc
  have h2 : max cs (maxSentLen text + 1) = cs := max_eq_left (by omega)
  omega

/-- Witness for the amended C2 at the concrete text `demoText` and chunk
size 400: every sentence is shorter than 400, and the produced chunk
respects the 400-character bound. -/
theorem C2_chunk_length_bound_witness :
    maxSentLen demoText < 400 ∧ demoChunk ∈ chunk_text demoText 400 ∧
    demoChunk.length ≤ 400 :=
  ⟨by decide, by decide,
    (C2_chunk_length_bound demoText 400).2 (by decide) demoChunk (by decide)⟩

/-- Indices produced by the argsort are positions into the similarity
vector. -/
theorem mem_argsortSims {sims : List ℚ} {i : Nat} (h : i ∈ argsortSims sims) :
    i < sims.length := by
  unfold argsortSims at h
  rw [List.mem_insertionSort] at h
  exact List.mem_range.mp h

/-- Every retrieved index comes from the argsort. -/
theorem mem_retrieveIndices {sims : List ℚ} {k i : Nat}
    (h : i ∈ retrieveIndices sims k) : i ∈ argsortSims sims := by
  unfold retrieveIndices at h
  have h1 := List.mem_of_mem_filter h
  rw [List.mem_reverse] at h1
  unfold pySliceLast at h1
  by_cases hk : k = 0
  · simpa [hk] using h1
  · exact List.mem_of_mem_drop (by simpa [hk] using h1)

/-- Every retrieved index passed the strict threshold comparison. -/
theorem retrieve_threshold_mem {sims : List ℚ} {k i : Nat}
    (h : i ∈ retrieveIndices sims k) : relevanceThreshold < sims.getD i 0 := by
  have h2 := (List.mem_filter.mp h).2
  simpa using h2

/-- Reading the similarity vector at a valid position yields one of its
members. -/
theorem getD_mem_of_lt {sims : List ℚ} {i : Nat} (h : i < sims.length) :
    sims.getD i 0 ∈ sims := by
  rw [List.getD_eq_getElem?_getD, List.getElem?_eq_getElem h]
  simp only [Option.getD_some]
  exact List.getElem_mem h

/-- The argsort lists indices in ascending order of similarity. -/
theorem argsortSims_pairwise (sims : List ℚ) :
    (argsortSims sims).Pairwise (fun i j => sims.getD i 0 ≤ sims.getD j 0) := by
  unfold argsortSims
  letI : IsTotal Nat (fun i j => sims.getD i 0 ≤ sims.getD j 0) :=
    ⟨fun a b => le_total _ _⟩
  letI : IsTrans Nat (fun i j => sims.getD i 0 ≤ sims.getD j 0) :=
    ⟨fun a b c hab hbc => le_trans hab hbc⟩
  exact List.sorted_insertionSort _ _

/-- The retrieved index sequence is ordered by non-increasing
similarity. -/
theorem retrieveIndices_pairwise (sims : List ℚ) (k : Nat) :
    (retrieveIndices sims k).Pairwise (fun i j => sims.getD j 0 ≤ sims.getD i 0) := by
  unfold retrieveIndices
  have h1 := argsortSims_pairwise sims
  have h2 : (pySliceLast (argsortSims sims) k).Pairwise
      (fun i j => sims.getD i 0 ≤ sims.getD j 0) := by
    unfold pySliceLast
    by_cases hk : k = 0
    · simpa [hk] using h1
    · simp only [hk, if_false]
      exact List.Pairwise.sublist (List.drop_sublist _ _) h1
  have h3 := List.pairwise_reverse.mpr h2
  exact List.Pairwise.sublist (List.filter_sublist _) h3

/-- C3: on a built sparse index, no returned chunk has a similarity
below the relevance threshold 0.1 (the filter keeps only strictly
greater similarities), and when every candidate falls below the
threshold the retrieval returns the empty result; the function is total,
so no error is raised in that case. -/
theorem C3_retrieval_threshold (docs : List (List Char)) (sims : List ℚ) (k : Nat) :
    (∀ i ∈ retrieveIndices sims k, ¬ (sims.getD i 0 < relevanceThreshold)) ∧
    ((∀ x ∈ sims, x < relevanceThreshold) →
      retrieveIndices sims k = [] ∧ get_relevant_context docs sims k = []) := by
  constructor
  · intro i hi
    exact lt_asymm (retrieve_threshold_mem hi)
  · intro hall
    have hempty : retrieveIndices sims k = [] := by
      by_contra hne
      rcases List.exists_mem_of_ne_nil _ hne with ⟨i, hi⟩
      have h1 := retrieve_threshold_mem hi
      have h2 : i < sims.length := mem_argsortSims (mem_retrieveIndices hi)
      exact absurd h1 (lt_asymm (hall _ (getD_mem_of_lt h2)))
    exact ⟨hempty, by simp [get_relevant_context, hempty]⟩

/-- Witness for C3: with both similarities below 0.1, retrieval returns
the empty result. -/
theorem C3_retrieval_threshold_witness :
    retrieveIndices [mkRat 1 20, mkRat 1 100] 3 = [] ∧
    get_relevant_context ["aa".toList, "bb".toList] [mkRat 1 20, mkRat 1 100] 3 = [] :=
  (C3_retrieval_threshold ["aa".toList, "bb".toList] [mkRat 1 20, mkRat 1 100] 3).2
    (by decide)

/-- C4 is false as stated for `top_k = 0`: the slice `[-0:]` is the
whole array in Python, so the retrieval returns one above-threshold
chunk instead of at most zero. -/
theorem C4_topk_zero_counterexample :
    ¬ ((get_relevant_context ["alpha".toList] [mkRat 1 2] 0).length ≤ 0) := by decide

/-- C4 (amended): for every `top_k ≥ 1`, retrieval returns at most
`top_k` chunks, and the similarity scores read along the returned
sequence are non-increasing.  For `top_k = 0` the Python slice `[-0:]`
selects the whole array, so every above-threshold chunk is returned. -/
theorem C4_topk_ordering (docs : List (List Char)) (sims : List ℚ) (k : Nat)
    (hk : 1 ≤ k) :
    (get_relevant_context docs sims k).length ≤ k ∧
    ((retrieveIndices sims k).map (fun i => sims.getD i 0)).Pairwise
      (fun a b => b ≤ a) := by
  constructor
  · have h1 : (retrieveIndices sims k).length ≤
        (pySliceLast (argsortSims sims) k).length := by
      unfold retrieveIndices
      calc ((pySliceLast (argsortSims sims) k).reverse.filter _).length
          ≤ (pySliceLast (argsortSims sims) k).reverse.length :=
            List.length_filter_le _ _
        _ = (pySliceLast (argsortSims sims) k).length := List.length_reverse _
    have h2 : (pySliceLast (argsortSims sims) k).length ≤ k := by
      unfold pySliceLast
      rw [if_neg (by omega), List.length_drop]
      omega
    have h3 : (get_relevant_context docs sims k).length =
        (retrieveIndices sims k).length := List.length_map _ _
    omega
  · rw [List.pairwise_map]
    exact retrieveIndices_pairwise sims k

/-- Witness for the amended C4 at `top_k = 1` over two stored chunks. -/
theorem C4_topk_ordering_witness :
    (get_relevant_context ["aa".toList, "bb".toList]
      [mkRat 1 2, mkRat 7 10] 1).length ≤ 1 :=
  (C4_topk_ordering ["aa".toList, "bb".toList] [mkRat 1 2, mkRat 7 10] 1
    (by decide)).1

/-- C5 is false as stated: building the index from the empty chunk
collection returns normally with the state unchanged; it does not raise
`EmptyInputError` or any other error. -/
theorem C5_empty_build_counterexample :
    create_vector_index ⟨[], none⟩ = Except.ok ⟨[], none⟩ ∧
    create_vector_index ⟨[], none⟩ ≠ Except.error BuildError.EmptyInputError :=
  ⟨rfl, fun h => Except.noConfusion h⟩

/-- C5 (amended): building the index from an empty chunk collection
silently succeeds and leaves the state unchanged, so the vectorizer and
matrix stay unbuilt; any subsequent retrieval on such a state returns
the empty result through the guard of `_get_relevant_context`. -/
theorem C5_empty_build_behavior (st : BotState) (h : st.documents = []) :
    create_vector_index st = Except.ok st ∧
    ∀ sims k, get_relevant_context_state st sims k = [] := by
  constructor
  · simp [create_vector_index, h]
  · intro sims k
    simp [get_relevant_context_state, h]

/-- Witness for the amended C5 at the empty bot state. -/
theorem C5_empty_build_behavior_witness :
    create_vector_index ⟨[], none⟩ = Except.ok ⟨[], none⟩ ∧
    get_relevant_context_state ⟨[], none⟩ [mkRat 1 2] 3 = [] :=
  ⟨(C5_empty_build_behavior ⟨[], none⟩ rfl).1,
   (C5_empty_build_behavior ⟨[], none⟩ rfl).2 [mkRat 1 2] 3⟩

/-- C6 is false as stated: a 10050-character text file is extracted in
full; no ceiling is applied at 10000 characters and no truncation
marker is appended (the result is exactly the decoded file content). -/
theorem C6_truncation_counterexample :
    extract_text ⟨"docs/long.txt".toList, 10050, some (List.replicate 10050 'a'),
      none, none⟩ = List.replicate 10050 'a' ∧
    10000 < (List.replicate 10050 'a').length := by
  constructor
  · simp only [extract_text]
    rw [if_pos (by decide)]
    rfl
  · rw [List.length_replicate]
    omega

/-- C6 (amended): the extractor applies no character ceiling: for a
text file whose decoded content exceeds 10000 characters, the extracted
text is that content unmodified, with nothing appended. -/
theorem C6_no_truncation (f : SrcFile) (t : List Char)
    (hext : extLower f.path = ".txt".toList) (hread : f.textRead = some t)
    (_hlong : 10000 < t.length) : extract_text f = t := by
  simp only [extract_text]
  rw [if_pos hext, hread]
  rfl

/-- Witness for the amended C6 at a concrete 10050-character file. -/
theorem C6_no_truncation_witness :
    extract_text ⟨"docs/long.txt".toList, 10050, some (List.replicate 10050 'a'),
      none, none⟩ = List.replicate 10050 'a' :=
  C6_no_truncation _ _ (by decide) rfl (by rw [List.length_replicate]; omega)

/-- The ingestion loop bound: starting within the cap, the result
exceeds 150 records by at most the largest chunk count a single file
contributes. -/
theorem loadLoop_length_bound (m : Nat) :
    ∀ files : List SrcFile,
      (∀ f ∈ files, (chunk_text (extract_text f) 400).length ≤ m) →
      ∀ acc : List ChunkDoc, acc.length ≤ 150 →
        (loadLoop files acc).length ≤ 150 + m := by
  intro files
  induction files with
  | nil =>
    intro _ acc hacc
    simp only [loadLoop]
    omega
  | cons f rest ih =>
    intro hm acc hacc
    have hmrest : ∀ g ∈ rest, (chunk_text (extract_text g) 400).length ≤ m :=
      fun g hg => hm g (List.mem_cons_of_mem _ hg)
    have happ : (loadAppend f acc).length ≤ 150 + m := by
      unfold loadAppend
      by_cases ht : (extract_text f).isEmpty
      · simp only [ht, if_true]
        omega
      · simp only [ht, Bool.false_eq_true, if_false, List.length_append,
          List.length_map, List.enum_length]
        have := hm f (List.mem_cons_self _ _)
        omega
    by_cases hsize : 5 * 1024 * 1024 < f.size
    · simpa [loadLoop, hsize] using ih hmrest acc hacc
    · by_cases hbreak : 150 < (loadAppend f acc).length
      · simpa [loadLoop, hsize, hbreak] using happ
      · simpa [loadLoop, hsize, hbreak] using
          ih hmrest (loadAppend f acc) (by omega)

/-- C7 is false as stated: 151 small one-chunk files produce 151 stored
chunk records, exceeding the configured cap of 150; the record past the
cap is stored, not dropped, because the loop checks the cap only after
appending a whole file. -/
theorem C7_chunk_cap_counterexample :
    150 < (load_and_process (List.replicate 151 smallTxtFile)).length := by decide

/-- C7 (amended): the cap is soft and checked between files: whenever
every file contributes at most `m` chunks, the stored chunk count is at
most `150 + m`; the excess over 150 is bounded only by the chunk count
of the last processed file, and remaining files after the break are
dropped entirely.  The check is a silent break, not an error. -/
theorem C7_chunk_cap_soft (files : List SrcFile) (m : Nat)
    (hm : ∀ f ∈ files, (chunk_text (extract_text f) 400).length ≤ m) :
    (load_and_process files).length ≤ 150 + m :=
  loadLoop_length_bound m files hm [] (by simp)

/-- Witness for the amended C7: one single-chunk file stays within
`150 + 1`. -/
theorem C7_chunk_cap_soft_witness :
    (load_and_process [smallTxtFile]).length ≤ 150 + 1 :=
  C7_chunk_cap_soft [smallTxtFile] 1 (by decide)

/-- C8 is false as stated: constructing the bot twice from the same
files performs the vectorizer fitting twice; no fingerprint is computed
and no cache is consulted, so the second build is not served from a
cache. -/
theorem C8_no_cache_counterexample :
    twoUploadsWork [smallTxtFile] = 2 ∧ mkBotWork [smallTxtFile] = 1 := by decide

/-- C8 (amended): construction is a pure function of the files, so two
uploads of byte-identical files produce identical states; but there is
no cache: every upload whose ingestion stores at least one chunk
performs the vectorizer fitting anew, and two consecutive uploads
perform it twice. -/
theorem C8_rebuild_every_upload (files : List SrcFile)
    (h : load_and_process files ≠ []) :
    mkBot files = create_vector_index ⟨load_and_process files, none⟩ ∧
    mkBotWork files = 1 ∧ twoUploadsWork files = 2 := by
  have hne : files ≠ [] := by
    intro hnil
    subst hnil
    exact h rfl
  have hfe : files.isEmpty = false := by simpa using hne
  have hwork : mkBotWork files = 1 := by
    simp [mkBotWork, hfe, create_vector_index_work, h]
  exact ⟨by simp [mkBot, hfe], hwork, by simp [twoUploadsWork, hwork]⟩

/-- Witness for the amended C8 at a concrete one-file upload. -/
theorem C8_rebuild_every_upload_witness :
    mkBotWork [oversizeFile, smallTxtFile] = 1 ∧
    twoUploadsWork [oversizeFile, smallTxtFile] = 2 :=
  (C8_rebuild_every_upload [oversizeFile, smallTxtFile] (by decide)).2

/-- Skipping a file above the size ceiling leaves the loop state
untouched, wherever the file sits in the batch. -/
theorem loadLoop_skip_oversize (f : SrcFile) (h : 5 * 1024 * 1024 < f.size) :
    ∀ (pre post : List SrcFile) (acc : List ChunkDoc),
      loadLoop (pre ++ f :: post) acc = loadLoop (pre ++ post) acc := by
  intro pre
  induction pre with
  | nil =>
    intro post acc
    simp [loadLoop, h]
  | cons g rest ih =>
    intro post acc
    simp only [List.cons_append, loadLoop]
    by_cases hg : 5 * 1024 * 1024 < g.size
    · simp only [hg, if_true]
      exact ih post acc
    · simp only [hg, if_false]
      by_cases hb : 150 < (loadAppend g acc).length
      · simp only [hb, if_true]
      · simp only [hb, if_false]
        exact ih post (loadAppend g acc)

/-- C9: a file above the 5 MB size ceiling is excluded from the batch
before extraction (the skip happens before `_extract_text` runs, so the
result does not depend on the oversize file at all), and ingestion
proceeds with the remaining valid files exactly as if the oversize file
had not been supplied. -/
theorem C9_oversize_excluded (pre post : List SrcFile) (f : SrcFile)
    (h : 5 * 1024 * 1024 < f.size) :
    load_and_process (pre ++ f :: post) = load_and_process (pre ++ post) :=
  loadLoop_skip_oversize f h pre post []

/-- Witness for C9: a 6 MB text file in a two-file batch is excluded
and ingestion succeeds on the remaining file. -/
theorem C9_oversize_excluded_witness :
    load_and_process [smallTxtFile, oversizeFile] = load_and_process [smallTxtFile] :=
  C9_oversize_excluded [smallTxtFile] [] oversizeFile (by decide)

/-- C10: for a path whose lowered extension is none of `.txt`, `.pdf`,
`.docx`, `.doc`, extraction neither skips the file nor raises: it reads
the file as plain text (UTF-8, invalid bytes ignored) and returns that
text; when the read itself fails, it returns the empty string. -/
theorem C10_unknown_ext_plain_text (f : SrcFile)
    (h1 : extLower f.path ≠ ".txt".toList) (h2 : extLower f.path ≠ ".pdf".toList)
    (h3 : extLower f.path ≠ ".docx".toList) (h4 : extLower f.path ≠ ".doc".toList) :
    (∀ t, f.textRead = some t → extract_text f = t) ∧
    (f.textRead = none → extract_text f = []) := by
  have hor : ¬ ((decide (extLower f.path = ".docx".toList) ||
      decide (extLower f.path = ".doc".toList)) = true) := by
    simp only [Bool.or_eq_true, decide_eq_true_eq]
    push_neg
    exact ⟨h3, h4⟩
  constructor
  · intro t ht
    simp only [extract_text]
    rw [if_neg h1, if_neg h2, if_neg hor, ht]
    rfl
  · intro ht
    simp only [extract_text]
    rw [if_neg h1, if_neg h2, if_neg hor, ht]
    rfl

/-- Witness for C10: a markdown file is read as plain text. -/
theorem C10_unknown_ext_plain_text_witness :
    extract_text ⟨"docs/readme.md".toList, 2, some "hi".toList, none, none⟩ =
      "hi".toList :=
  (C10_unknown_ext_plain_text ⟨"docs/readme.md".toList, 2, some "hi".toList, none, none⟩
    (by decide) (by decide) (by decide) (by decide)).1 _ rfl

end RagBot
